import Mathlib

/-!
Verification of the data-ingestion/normalization core of the agent
(`src/agent.ts`): the Row Cleaner (`cleanRows`), the CSV tokenizer
(`parseCSV`) and serializer (`toCSV`/`csvCell`), the arbitrary-JSON
normalizer (`parseArbitraryJSON` with `discoverColumnsFromObjects` and
`pick`), the format router of `datasetStream`, and the event/state
behaviour of the `datasetStream` pipeline.

Modelling conventions:
* JS strings are `List Char` (named `JStr`).
* JS numbers are modelled exactly for terminating decimals as a canonical
  pair (integer mantissa, base-10 exponent); every number produced by the
  code under verification (`parseFloat` on `[-\d.,]+` material) is such a
  decimal.  Equality of the model coincides with JS `===` / stringify
  equality on these values.
* JS objects are association lists in insertion order with unique keys
  maintained by `objSet` (assignment) exactly as JS property update does:
  an existing key keeps its position, a new key is appended.
* `undefined` is a distinguished `Value`; `JSON.stringify` dropping
  `undefined`-valued properties is modelled by `dedupKey`.
-/

/-- JS strings, modelled as lists of characters. -/
abbrev JStr := List Char

/-- A JS number in canonical terminating-decimal form: the value is
`mant / 10 ^ exp`, with the fraction part carrying no trailing zeros and
`0` represented as `⟨0, 0⟩` (constructed only through `mkJNum`). -/
structure JNum where
  mant : Int
  exp : Nat
deriving DecidableEq, Repr

/-- Scalar JS values that can live in a table cell after CSV parsing and
cleaning: strings, numbers, `null`, `undefined`. -/
inductive Value where
  | str (s : JStr)
  | num (n : JNum)
  | null
  | undefined
deriving DecidableEq, Repr

/-- A JS object with `Value` fields: an association list in property
insertion order. -/
abbrev Obj := List (JStr × Value)

/-- JS property read `o[k]`: first (unique) matching key, `undefined` when
absent. -/
def objGet (o : Obj) (k : JStr) : Value :=
  match o.find? (fun p => p.1 = k) with
  | some p => p.2
  | none => Value.undefined

/-- JS property write `o[k] = v`: overwrite in place when the key exists,
append otherwise. -/
def objSet (o : Obj) (k : JStr) (v : Value) : Obj :=
  if o.any (fun p => p.1 = k) then
    o.map (fun p => if p.1 = k then (k, v) else p)
  else o ++ [(k, v)]

/-- Whether `k` is a property key of `o`. -/
def hasKey (o : Obj) (k : JStr) : Bool :=
  o.any (fun p => p.1 = k)

/-- JS `String.prototype.trim`. -/
def trimChars (s : JStr) : JStr :=
  ((s.dropWhile Char.isWhitespace).reverse.dropWhile Char.isWhitespace).reverse

/-- Numeric value of a list of decimal digit characters. -/
def natOfDigits (ds : JStr) : Nat :=
  ds.foldl (fun a c => 10 * a + (c.toNat - '0'.toNat)) 0

/-- Build the canonical `JNum` from a sign, integer-part digits and
fraction-part digits (as produced by `parseFloat`). -/
def mkJNum (neg : Bool) (intDs fracDs : JStr) : JNum :=
  let frac := (fracDs.reverse.dropWhile (fun c => c = '0')).reverse
  let m : Nat := natOfDigits (intDs ++ frac)
  if m = 0 then ⟨0, 0⟩
  else ⟨(if neg then -(m : Int) else (m : Int)), frac.length⟩

/-- JS `parseFloat` restricted to the character alphabet `[0-9.-]` that
`toNum` can feed it (after the `[-\d.,]+` shape test and comma stripping):
an optional leading minus, then integer digits, then an optional fraction;
`none` models `NaN` (no digits consumed). Trailing unparsable material is
ignored, as `parseFloat` does. -/
def parseFloatChars (s : JStr) : Option JNum :=
  let (neg, s1) : Bool × JStr :=
    match s with
    | '-' :: t => (true, t)
    | t => (false, t)
  let intDs := s1.takeWhile Char.isDigit
  let rest := s1.dropWhile Char.isDigit
  let fracDs : JStr :=
    match rest with
    | '.' :: t => t.takeWhile Char.isDigit
    | _ => []
  if intDs = [] ∧ fracDs = [] then none
  else some (mkJNum neg intDs fracDs)

/-- JS `String(n)` for a canonical decimal number. -/
def numToString (n : JNum) : JStr :=
  let ds := (toString n.mant.natAbs).toList
  let sign : JStr := if n.mant < 0 then ['-'] else []
  if n.exp = 0 then sign ++ ds
  else
    let padded := List.replicate (n.exp + 1 - ds.length) '0' ++ ds
    sign ++ padded.take (padded.length - n.exp) ++ '.' :: padded.drop (padded.length - n.exp)

/-- JS `String(v)` on a scalar value. -/
def jsValToString (v : Value) : JStr :=
  match v with
  | .str s => s
  | .num n => numToString n
  | .null => "null".toList
  | .undefined => "undefined".toList

/-- The shape test `/^[-\d.,]+$/` of `cleanRows.toNum`. -/
def numericShape (s : JStr) : Bool :=
  !s.isEmpty && s.all (fun c => c.isDigit || c = '-' || c = '.' || c = ',')

/-- `toNum` from `cleanRows` (agent.ts lines 631-637): numbers pass
through; any other value whose string form matches `^[-\d.,]+$` is parsed
as a float with commas stripped, keeping the original on parse failure. -/
def toNum (v : Value) : Value :=
  match v with
  | .num n => .num n
  | v =>
    let s := jsValToString v
    if numericShape s then
      match parseFloatChars (s.filter (fun c => c ≠ ',')) with
      | some n => .num n
      | none => v
    else v

/-- One cell of the cleaning pass: trim when a string, then `toNum`
(agent.ts lines 641-644). -/
def cleanVal (v : Value) : Value :=
  toNum (match v with | .str s => .str (trimChars s) | v => v)

/-- The per-row rebuild `rr` of `cleanRows` (lines 640-645): a fresh
object with `rr[c] = cleanVal (r[c])` assigned for each column in order. -/
def cleanRow (cols : List JStr) (r : Obj) : Obj :=
  cols.foldl (fun rr c => objSet rr c (cleanVal (objGet r c))) []

/-- The emptiness test of line 646: `rr[c] === '' || rr[c] == null`. -/
def isEmptyVal (v : Value) : Bool :=
  v = .str [] || v = .null || v = .undefined

/-- A row every column of which is empty (line 646). -/
def isEmptyRow (cols : List JStr) (rr : Obj) : Bool :=
  cols.all (fun c => isEmptyVal (objGet rr c))

/-- The `JSON.stringify(rr)` deduplication key of line 648, up to string
equality: serialization drops `undefined`-valued properties and is
injective on what remains. -/
def dedupKey (rr : Obj) : Obj :=
  rr.filter (fun p => p.2 ≠ Value.undefined)

/-- The row loop of `cleanRows` (lines 639-652): clean each row, drop
fully-empty rows, drop rows whose dedup key was already seen. -/
def cleanLoop (cols : List JStr) (seen : List Obj) : List Obj → List Obj
  | [] => []
  | r :: rs =>
    let rr := cleanRow cols r
    if isEmptyRow cols rr then cleanLoop cols seen rs
    else if seen.contains (dedupKey rr) then cleanLoop cols seen rs
    else rr :: cleanLoop cols (dedupKey rr :: seen) rs

/-- `cleanRows` (agent.ts lines 626-661): clean/dedup the rows, then prune
the columns that are empty across all surviving rows — unless that would
remove every column or no column. -/
def cleanRows (columns : List JStr) (rows : List Obj) : List JStr × List Obj :=
  let cols := columns
  let out := cleanLoop cols [] rows
  let keep := cols.filter (fun c => out.any (fun r => !isEmptyVal (objGet r c)))
  if keep.length ≠ 0 ∧ keep.length ≠ cols.length then
    (keep, out.map (fun r => r.filter (fun p => keep.contains p.1)))
  else (cols, out)

/-! ### CSV tokenizer and serializer (agent.ts lines 703-754) -/

/-- Split a character list at a separator (JS `String.prototype.split` with
a one-character separator: `n` separators yield `n+1` pieces, exactly
`List.splitOn`). -/
def splitCh (sep : Char) (l : JStr) : List JStr :=
  l.splitOn sep

/-- The character loop of `parseLine` (lines 710-731): state `inQ`
(inside a quoted region), `cur` (current field), `out` (fields emitted so
far); the final `cur` is always pushed. -/
def parseLineGo (inQ : Bool) (cur : JStr) (out : List JStr) : JStr → List JStr
  | [] => out ++ [cur]
  | c :: rest =>
    if inQ then
      if c = '"' then
        match rest with
        | '"' :: rest2 => parseLineGo true (cur ++ ['"']) out rest2
        | rest => parseLineGo false cur out rest
      else parseLineGo true (cur ++ [c]) out rest
    else
      if c = ',' then parseLineGo false [] (out ++ [cur]) rest
      else if c = '"' then parseLineGo true cur out rest
      else parseLineGo false (cur ++ [c]) out rest

/-- `parseLine` of `parseCSV`: split one physical line into field values,
honouring quoting and `""` escapes. -/
def parseLine (l : JStr) : List JStr :=
  parseLineGo false [] [] l

/-- The synthetic column name `col<i>` used for unnamed header cells
(line 739). -/
def colName (i : Nat) : JStr :=
  "col".toList ++ (toString i).toList

/-- The row-object build of lines 737-740: for the `i`-th header cell,
assign `obj[header[i] || col<i>] = vals[i] ?? ''`. -/
def rowBuild (rr : Obj) (i : Nat) : List JStr → List JStr → Obj
  | [], _ => rr
  | h :: hs, vs =>
    let key := if h = [] then colName i else h
    rowBuild (objSet rr key (.str (vs.headD []))) (i + 1) hs (vs.drop 1)

/-- Build one CSV row object from the header cells and the parsed field
values of one line. -/
def rowOfHeader (header vals : List JStr) : Obj :=
  rowBuild [] 0 header vals

/-- The line-level body of `parseCSV` (lines 708-742): an empty line list
yields the empty table; otherwise the first line is the (trimmed) header
and at most 20000 further lines (`lines.slice(1, 20001)`) become row
objects. -/
def parseCSVlines : List (List Char) → List JStr × List Obj
  | [] => ([], [])
  | l0 :: rest =>
    let header := (parseLine l0).map trimChars
    (header, (rest.take 20000).map (fun ln => rowOfHeader header (parseLine ln)))

/-- `parseCSV` (lines 703-743): strip `\r`, split into non-blank lines,
parse the first as the (trimmed) header, and parse at most 20000 data
lines into row objects. -/
def parseCSV (text : JStr) : List JStr × List Obj :=
  parseCSVlines ((splitCh '\n' (text.filter (fun c => c ≠ '\r'))).filter (fun l => l ≠ []))

/-- Double every `"` in a character list (the `replace(/"/g, '""')` of
`csvCell`). -/
def doubleQuotes (s : JStr) : JStr :=
  s.flatMap (fun c => if c = '"' then ['"', '"'] else [c])

/-- `csvCell` on the string form of a cell (lines 750-754): double the
quotes, then wrap in quotes iff the result contains a quote, comma or
newline. -/
def csvCellChars (s : JStr) : JStr :=
  if (doubleQuotes s).any (fun c => c = '"' || c = ',' || c = '\n') then
    '"' :: doubleQuotes s ++ ['"']
  else doubleQuotes s

/-- `csvCell` on a value: `null`/`undefined` render as the empty cell,
anything else as its escaped string form. -/
def csvCell (v : Value) : JStr :=
  match v with
  | .null => []
  | .undefined => []
  | v => csvCellChars (jsValToString v)

/-- One serialized CSV data line of `toCSV` (line 747). -/
def rowLine (columns : List JStr) (r : Obj) : JStr :=
  List.intercalate [','] (columns.map (fun c => csvCell (objGet r c)))

/-- `toCSV` (lines 745-749): comma-joined header, newline, newline-joined
escaped data lines. -/
def toCSV (columns : List JStr) (rows : List Obj) : JStr :=
  List.intercalate [','] columns ++ '\n' :: List.intercalate ['\n'] (rows.map (rowLine columns))

example : parseLine "a,b".toList = ["a".toList, "b".toList] := by decide
example : parseLine "\"a,b\",c".toList = ["a,b".toList, ['c']] := by decide
example : parseLine "\"a\"\"b\"".toList = ["a\"b".toList] := by decide
example :
    parseCSV "a,,b\n1,2,3".toList =
      ([['a'], [], ['b']],
       [[(['a'], .str ['1']), ("col1".toList, .str ['2']), (['b'], .str ['3'])]]) := by decide
example :
    parseCSV "a\n\"x\ny\"".toList = ([['a']], [[(['a'], .str ['x'])], [(['a'], .str ['y'])]]) := by
  decide
example : toCSV [['a'], ['b']] [[(['a'], .str "x\"y".toList), (['b'], .null)]] =
    "a,b\n\"x\"\"y\",".toList := by decide

/-! ### Arbitrary-JSON normalizer (agent.ts lines 593-624, 692-701, 755-758) -/

/-- Parsed JSON values (no `undefined`: `JSON.parse` never produces it). -/
inductive JVal where
  | str (s : JStr)
  | num (n : JNum)
  | bool (b : Bool)
  | null
  | arr (xs : List JVal)
  | obj (kvs : List (JStr × JVal))

/-- `Array.isArray`. -/
def JVal.isArr : JVal → Bool
  | .arr _ => true
  | _ => false

/-- `v && typeof v === 'object' && !Array.isArray(v)`: a non-null,
non-array object. -/
def JVal.isPlainObj : JVal → Bool
  | .obj _ => true
  | _ => false

/-- `discoverColumnsFromObjects` (lines 692-701): union the own-keys of
the non-array objects among the first 400 items, in first-seen order;
`["value"]` when none are found. -/
def discoverColumnsFromObjects (objs : List JVal) : List JStr :=
  let cols := (objs.take 400).foldl
    (fun acc o =>
      match o with
      | JVal.obj kvs => kvs.foldl (fun a p => if a.contains p.1 then a else a ++ [p.1]) acc
      | _ => acc)
    []
  if cols = [] then ["value".toList] else cols

/-- JS optional property read `o?.[k]`: `none` models `undefined`. -/
def jget (o : JVal) (k : JStr) : Option JVal :=
  match o with
  | .obj kvs =>
    match kvs.find? (fun p => p.1 = k) with
    | some p => some p.2
    | none => none
  | _ => none

/-- One projected cell of `pick` (line 757): `obj?.[c] ?? ''` — both a
missing property and a `null` value fall back to the empty string. -/
def pickCell (o : JVal) (c : JStr) : JVal :=
  match jget o c with
  | some .null => .str []
  | some v => v
  | none => .str []

/-- `pick` (lines 755-759): project an arbitrary value onto a column set,
assigning `out[c] = obj?.[c] ?? ''` for each column in order. -/
def pick (cols : List JStr) (o : JVal) : List (JStr × JVal) :=
  (cols.foldl
    (fun (acc : List (JStr × JVal)) c =>
      if acc.any (fun p => p.1 = c) then
        acc.map (fun p => if p.1 = c then (c, pickCell o c) else p)
      else acc ++ [(c, pickCell o c)])
    [])

/-- `Object.values` of a JSON object. -/
def objValues : JVal → List JVal
  | .obj kvs => kvs.map (fun p => p.2)
  | _ => []

/-- JS `String(v)` on a parsed JSON value (only the non-object cases are
exercised by `parseArbitraryJSON`). -/
def jvalToString : JVal → JStr
  | .str s => s
  | .num n => numToString n
  | .bool true => "true".toList
  | .bool false => "false".toList
  | .null => "null".toList
  | .arr _ => []
  | .obj _ => "[object Object]".toList

/-- `parseArbitraryJSON` (lines 593-624): top-level array → discover and
project; object with an array-valued field → use that array; object with
an object-valued field → use its `Object.values`; other object → a single
row of its own key/value pairs; primitive → a single `value` row. -/
def parseArbitraryJSON (body : JVal) : List JStr × List (List (JStr × JVal)) :=
  match body with
  | .arr xs =>
    let columns := discoverColumnsFromObjects xs
    (columns, (xs.take 20000).map (pick columns))
  | .obj kvs =>
    match kvs.find? (fun p => p.2.isArr) with
    | some p =>
      let arr := match p.2 with | .arr xs => xs | _ => []
      let columns := discoverColumnsFromObjects arr
      (columns, (arr.take 20000).map (pick columns))
    | none =>
      match kvs.find? (fun p => p.2.isPlainObj) with
      | some p =>
        let vals := objValues p.2
        let columns := discoverColumnsFromObjects vals
        (columns, (vals.take 20000).map (pick columns))
      | none => (kvs.map (fun p => p.1), [kvs])
  | prim => (["value".toList], [[("value".toList, .str (jvalToString prim))]])

/-! ### Format router of `datasetStream` (agent.ts lines 141-187, 663-677) -/

/-- Substring test over character lists (the case-insensitive content-type
regexes act on an already lower-cased header). -/
def containsSub (hay pat : JStr) : Bool :=
  List.any (List.range (hay.length + 1)) (fun i => (hay.drop i).take pat.length = pat)

/-- Suffix test over character lists (JS `String.prototype.endsWith`). -/
def endsWithSub (hay pat : JStr) : Bool :=
  hay.drop (hay.length - pat.length) = pat ∧ pat.length ≤ hay.length

/-- `/text\/csv|application\/csv/i` on a lower-cased content type. -/
def isCSVct (ct : JStr) : Bool :=
  containsSub ct "text/csv".toList || containsSub ct "application/csv".toList

/-- `/ndjson|jsonl/i`. -/
def isNDJSONct (ct : JStr) : Bool :=
  containsSub ct "ndjson".toList || containsSub ct "jsonl".toList

/-- `/xml|rss|atom/i`. -/
def isXMLct (ct : JStr) : Bool :=
  containsSub ct "xml".toList || containsSub ct "rss".toList || containsSub ct "atom".toList

/-- `/json/i`. -/
def isJSONct (ct : JStr) : Bool :=
  containsSub ct "json".toList

/-- The parsing strategies the URL branch of `datasetStream` can select. -/
inductive Strategy where
  | csv
  | ndjson
  | json
  | xml
  | html
deriving DecidableEq, Repr

/-- The strategy dispatch of lines 147-187: one `if`/`else if` chain, each
format tested as "content-type matcher OR url suffix", in the order
CSV, NDJSON, JSON, XML, with HTML as the final fallback.  `ct` is the
lower-cased content-type header. -/
def routeFormat (ct url : JStr) : Strategy :=
  if isCSVct ct || endsWithSub url ".csv".toList then .csv
  else if isNDJSONct ct || endsWithSub url ".ndjson".toList || endsWithSub url ".jsonl".toList then
    .ndjson
  else if isJSONct ct || endsWithSub url ".json".toList then .json
  else if isXMLct ct || endsWithSub url ".xml".toList || endsWithSub url ".rss".toList then .xml
  else .html

example : routeFormat "application/xml".toList "https://e.com/a.json".toList = .json := by decide
example : routeFormat "application/xml".toList "https://e.com/a".toList = .xml := by decide
example : routeFormat "text/csv".toList "https://e.com/a.json".toList = .csv := by decide

/-! ### The `datasetStream` pipeline: events and retained state
(agent.ts lines 118-265)

The pipeline body is one async block: fetch/parse, clean, `setState`
(line 220), `schema`, the embedding block, chart planning, `table`, final
log — with a single `catch` that emits `error`.  External effects are
parameters: whether the fetch/parse phase succeeds (and which log
messages it emits), whether the vector backend `MEM` is configured,
whether embedding was requested, whether the non-recovered external calls
(the per-row `upsert` inside `embedRows`, the `AI.run` inside
`planCharts`) throw. -/

/-- The retained `lastSchema` state (line 222). -/
structure Snapshot where
  name : JStr
  url : JStr
  columns : List JStr
  sample : List Obj
deriving DecidableEq, Repr

/-- The SSE events of `datasetStream`; payloads other than the log text do
not matter to the ordering claims and are omitted. -/
inductive Event where
  | log (msg : JStr)
  | schema
  | warn
  | vectorized
  | insights
  | table
  | error
deriving DecidableEq, Repr

/-- Outcome of the fetch/parse phase (lines 141-210): either it throws
after emitting some progress logs (failed fetch, non-ok status, invalid
JSON), or it yields a raw `(columns, rows)` table after its logs. -/
inductive FetchParse where
  | fail (logs : List JStr)
  | ok (logs : List JStr) (columns : List JStr) (rows : List Obj)

/-- The chart-planning tail of the pipeline (lines 247-256): the planning
log, then — unless the planner call throws — `insights`, `table` and the
final "Done." log. -/
def planPhase (st : Option Snapshot) (evs : List Event) (planOk : Bool) :
    Option Snapshot × List Event :=
  let evs := evs ++ [Event.log "Planning charts & insights…".toList]
  if planOk then
    (st, evs ++ [Event.insights, Event.table, Event.log "Done.".toList])
  else (st, evs ++ [Event.error])

/-- The async body of `datasetStream` (lines 135-262) as a function from
the previous retained state to the new retained state and the emitted
event sequence.  `nChosen` is the length of the row subset the ranking
collaborator returned (it only appears in a log message). -/
def datasetStreamRun (st : Option Snapshot) (name url : JStr) (fp : FetchParse)
    (memConfigured embedRequested embedOk planOk : Bool) (nChosen : Nat) :
    Option Snapshot × List Event :=
  match fp with
  | .fail logs => (st, logs.map Event.log ++ [Event.error])
  | .ok logs columns0 rows0 =>
    let cleaned := cleanRows columns0 rows0
    let columns := cleaned.1
    let rows := cleaned.2
    let evs := logs.map Event.log ++
      [Event.log ("Cleaned data: ".toList ++ (toString rows0.length).toList ++ " → ".toList ++
        (toString rows.length).toList ++ " rows, ".toList ++ (toString columns.length).toList ++
        " cols.".toList)]
    let st := some { name := name, url := url, columns := columns, sample := rows.take 2000 }
    let evs := evs ++ [Event.schema]
    if !memConfigured then
      planPhase st (evs ++ [Event.warn]) planOk
    else if embedRequested then
      let evs := evs ++ [Event.log "Ranking rows for embedding…".toList,
        Event.log ("Vectorizing ".toList ++ (toString nChosen).toList ++ " rows…".toList)]
      if embedOk then planPhase st (evs ++ [Event.vectorized]) planOk
      else (st, evs ++ [Event.error])
    else planPhase st evs planOk

/-- Whether an event is a free-text progress log. -/
def isLogEvent : Event → Bool
  | .log _ => true
  | _ => false

/-- The event ordering asserted by the specification for a successful
ingestion with embedding: some logs, then exactly
`schema, (warn|vectorized), insights, table, log "Done."` with nothing
in between. -/
def specClaimedOrder (tr : List Event) : Prop :=
  ∃ pre w, (∀ e ∈ pre, isLogEvent e = true) ∧
    (w = Event.warn ∨ w = Event.vectorized) ∧
    tr = pre ++ [Event.schema, w, Event.insights, Event.table, Event.log "Done.".toList]

/-! ### Association-list lemmas for the JS-object model -/

theorem objGet_nil (k : JStr) : objGet [] k = Value.undefined := rfl

theorem objGet_cons (p : JStr × Value) (o : Obj) (k : JStr) :
    objGet (p :: o) k = if p.1 = k then p.2 else objGet o k := by
  unfold objGet
  rw [List.find?_cons]
  by_cases h : p.1 = k <;> simp [h]

theorem hasKey_cons (p : JStr × Value) (o : Obj) (k : JStr) :
    hasKey (p :: o) k = (decide (p.1 = k) || hasKey o k) := by
  simp [hasKey]

/-- Overwriting the entries keyed `k` does not change reads at other keys. -/
theorem objGet_map_overwrite (o : Obj) (k : JStr) (v : Value) (k' : JStr) (hne : k' ≠ k) :
    objGet (o.map (fun p => if p.1 = k then (k, v) else p)) k' = objGet o k' := by
  induction o with
  | nil => rfl
  | cons p o ih =>
    by_cases hp : p.1 = k
    · rw [List.map_cons, if_pos hp, objGet_cons, objGet_cons, if_neg (fun h => hne h.symm),
        if_neg (fun h => hne ((hp ▸ h).symm)), ih]
    · rw [List.map_cons, if_neg hp, objGet_cons, objGet_cons]
      by_cases hpk : p.1 = k' <;> simp [hpk, ih]

theorem objGet_objSet (o : Obj) (k : JStr) (v : Value) (k' : JStr) :
    objGet (objSet o k v) k' = if k' = k then v else objGet o k' := by
  unfold objSet
  by_cases h' : k' = k
  · subst h'
    rw [if_pos rfl]
    split
    · rename_i hmem
      induction o with
      | nil => simp at hmem
      | cons p o ih =>
        simp only [List.any_cons, Bool.or_eq_true, decide_eq_true_eq] at hmem
        by_cases hp : p.1 = k'
        · rw [List.map_cons, if_pos hp, objGet_cons]
          simp
        · rw [List.map_cons, if_neg hp, objGet_cons, if_neg hp]
          exact ih (hmem.resolve_left hp)
    · rename_i hmem
      simp only [List.any_eq_true, decide_eq_true_eq, not_exists, not_and] at hmem
      unfold objGet
      rw [List.find?_append, List.find?_eq_none.mpr (fun p hp => by simpa using hmem p hp)]
      simp [List.find?_cons]
  · rw [if_neg h']
    split
    · exact objGet_map_overwrite o k v k' h'
    · have hk : ¬ (k = k') := fun h => h' h.symm
      unfold objGet
      rw [List.find?_append]
      cases hfind : o.find? (fun p => decide (p.1 = k')) with
      | some p => simp
      | none => simp [List.find?_cons, hk]

theorem hasKey_map_overwrite (o : Obj) (k : JStr) (v : Value) (k' : JStr) :
    hasKey (o.map (fun p => if p.1 = k then (k, v) else p)) k' = hasKey o k' := by
  induction o with
  | nil => rfl
  | cons p o ih =>
    simp only [List.map_cons, hasKey_cons, ih]
    by_cases hp : p.1 = k
    · simp [hp]
    · simp [hp]

theorem hasKey_objSet (o : Obj) (k : JStr) (v : Value) (k' : JStr) :
    hasKey (objSet o k v) k' = (hasKey o k' || decide (k' = k)) := by
  unfold objSet
  split
  · rename_i hmem
    rw [hasKey_map_overwrite]
    by_cases h' : k' = k
    · subst h'
      have hm : hasKey o k' = true := hmem
      simp [hm]
    · simp [h']
  · unfold hasKey
    rw [List.any_append]
    simp [eq_comm]

/-- Reads through `cleanRow`: every listed column reads back its cleaned
cell, anything else is absent. -/
theorem objGet_foldl_objSet (cols : List JStr) (f : JStr → Value) (rr : Obj) (c : JStr) :
    objGet (cols.foldl (fun rr c => objSet rr c (f c)) rr) c =
      if c ∈ cols then f c else objGet rr c := by
  induction cols generalizing rr with
  | nil => simp
  | cons c0 cs ih =>
    rw [List.foldl_cons, ih]
    by_cases hc : c ∈ cs
    · simp [hc, List.mem_cons]
    · rw [if_neg hc, objGet_objSet]
      by_cases h0 : c = c0 <;> simp [h0, hc]

theorem hasKey_foldl_objSet (cols : List JStr) (f : JStr → Value) (rr : Obj) (c : JStr) :
    hasKey (cols.foldl (fun rr c => objSet rr c (f c)) rr) c =
      (hasKey rr c || decide (c ∈ cols)) := by
  induction cols generalizing rr with
  | nil => simp
  | cons c0 cs ih =>
    rw [List.foldl_cons, ih, hasKey_objSet]
    by_cases h0 : c = c0 <;> by_cases hc : c ∈ cs <;>
      simp [h0, hc, List.mem_cons]

theorem objGet_cleanRow (cols : List JStr) (r : Obj) (c : JStr) (hc : c ∈ cols) :
    objGet (cleanRow cols r) c = cleanVal (objGet r c) := by
  unfold cleanRow
  rw [objGet_foldl_objSet, if_pos hc]

theorem hasKey_cleanRow (cols : List JStr) (r : Obj) (c : JStr) :
    hasKey (cleanRow cols r) c = decide (c ∈ cols) := by
  unfold cleanRow
  rw [hasKey_foldl_objSet]
  simp [hasKey]

/-! ### Row Cleaner lemmas -/

/-- Cells that are already empty pass through the cleaning step
unchanged. -/
theorem cleanVal_of_empty (v : Value) (h : isEmptyVal v = true) : cleanVal v = v := by
  have h' : (v = .str [] ∨ v = .null) ∨ v = .undefined := by
    simpa [isEmptyVal] using h
  rcases h' with (h' | h') | h' <;> subst h' <;> rfl

/-- Every row the cleaning loop emits is the cleaned form of some input
row. -/
theorem cleanLoop_mem (cols : List JStr) (seen : List Obj) (rows : List Obj) (r' : Obj)
    (h : r' ∈ cleanLoop cols seen rows) : ∃ r, r' = cleanRow cols r := by
  induction rows generalizing seen with
  | nil => simp [cleanLoop] at h
  | cons r rs ih =>
    simp only [cleanLoop] at h
    by_cases h1 : isEmptyRow cols (cleanRow cols r) = true
    · rw [if_pos h1] at h
      exact ih seen h
    · rw [if_neg h1] at h
      by_cases h2 : seen.contains (dedupKey (cleanRow cols r)) = true
      · rw [if_pos h2] at h
        exact ih seen h
      · rw [if_neg h2] at h
        rcases List.mem_cons.mp h with h | h
        · exact ⟨r, h⟩
        · exact ih _ h

/-- Rows that clean to fully-empty rows are all dropped. -/
theorem cleanLoop_of_all_empty (cols : List JStr) (rows : List Obj) (seen : List Obj)
    (h : ∀ r ∈ rows, isEmptyRow cols (cleanRow cols r) = true) :
    cleanLoop cols seen rows = [] := by
  induction rows generalizing seen with
  | nil => rfl
  | cons r rs ih =>
    simp only [cleanLoop]
    rw [if_pos (h r (List.mem_cons_self r rs))]
    exact ih seen (fun x hx => h x (List.mem_cons_of_mem _ hx))

/-- Filtering an object by a key predicate filters its key set. -/
theorem hasKey_filter (o : Obj) (f : JStr → Bool) (k : JStr) :
    hasKey (o.filter (fun p => f p.1)) k = (hasKey o k && f k) := by
  induction o with
  | nil => rfl
  | cons p o ih =>
    by_cases hk : p.1 = k
    · subst hk
      by_cases hf : f p.1 = true <;>
        simp [List.filter_cons, hasKey_cons, hf, ih]
    · by_cases hf : f p.1 = true <;>
        simp [List.filter_cons, hasKey_cons, hf, hk, ih]

/-- C10 helper: a row all of whose listed cells are empty cleans to a
fully-empty row. -/
theorem isEmptyRow_cleanRow_of_empty (cols : List JStr) (r : Obj)
    (h : ∀ c ∈ cols, isEmptyVal (objGet r c) = true) :
    isEmptyRow cols (cleanRow cols r) = true := by
  unfold isEmptyRow
  rw [List.all_eq_true]
  intro c hc
  rw [objGet_cleanRow cols r c hc, cleanVal_of_empty _ (h c hc)]
  exact h c hc

/-- Claim C1: for every column list and row list, the Row Cleaner's output
column list is a subsequence of the input column list in the original
order, and every returned row has exactly the returned columns as its key
set — no missing and no extra keys. -/
theorem cleanRows_columns_sublist_and_keys (columns : List JStr) (rows : List Obj) :
    ((cleanRows columns rows).1.Sublist columns) ∧
      (∀ r ∈ (cleanRows columns rows).2, ∀ k,
        hasKey r k = true ↔ k ∈ (cleanRows columns rows).1) := by
  simp only [cleanRows]
  by_cases hcond :
      (columns.filter
          (fun c => (cleanLoop columns [] rows).any (fun r => !isEmptyVal (objGet r c)))).length ≠ 0 ∧
        (columns.filter
          (fun c => (cleanLoop columns [] rows).any (fun r => !isEmptyVal (objGet r c)))).length ≠
          columns.length
  · rw [if_pos hcond]
    refine ⟨List.filter_sublist _, ?_⟩
    intro r hr k
    simp only [List.mem_map] at hr
    obtain ⟨r0, hr0, rfl⟩ := hr
    obtain ⟨r1, rfl⟩ := cleanLoop_mem _ _ _ _ hr0
    rw [hasKey_filter]
    rw [hasKey_cleanRow]
    constructor
    · intro hk
      simp only [Bool.and_eq_true, decide_eq_true_eq] at hk
      exact List.elem_iff.mp hk.2
    · intro hk
      have hkc : k ∈ columns := List.mem_of_mem_filter hk
      simp only [Bool.and_eq_true, decide_eq_true_eq]
      exact ⟨hkc, List.elem_iff.mpr hk⟩
  · rw [if_neg hcond]
    refine ⟨List.Sublist.refl _, ?_⟩
    intro r hr k
    obtain ⟨r1, rfl⟩ := cleanLoop_mem _ _ _ _ hr
    rw [hasKey_cleanRow]
    simp

/-- Witness for C1: the theorem applied to a concrete table in which the
empty column `b` is pruned. -/
theorem cleanRows_columns_sublist_and_keys_witness :
    ((cleanRows [['a'], ['b']] [[(['a'], Value.str ['1']), (['b'], Value.str [])]]).1.Sublist
        [['a'], ['b']]) ∧
      (hasKey [(['a'], Value.num ⟨1, 0⟩)] ['b'] = true ↔
        ['b'] ∈ (cleanRows [['a'], ['b']] [[(['a'], Value.str ['1']), (['b'], Value.str [])]]).1) :=
  ⟨(cleanRows_columns_sublist_and_keys _ _).1,
   (cleanRows_columns_sublist_and_keys [['a'], ['b']]
      [[(['a'], Value.str ['1']), (['b'], Value.str [])]]).2
     [(['a'], Value.num ⟨1, 0⟩)] (by decide) ['b']⟩

/-- Claim C10: when the Row Cleaner drops every row — every input row is
empty in all columns, or the input row list is empty — the returned column
list is the input column list unchanged: no pruning happens even though
every column is vacuously empty across the surviving rows. -/
theorem cleanRows_allEmpty_keeps_columns (cols : List JStr) (rows : List Obj)
    (h : ∀ r ∈ rows, ∀ c ∈ cols, isEmptyVal (objGet r c) = true) :
    cleanRows cols rows = (cols, []) := by
  simp only [cleanRows]
  rw [cleanLoop_of_all_empty cols rows []
    (fun r hr => isEmptyRow_cleanRow_of_empty cols r (h r hr))]
  simp

/-- Witness for C10: a single all-empty row is dropped and the column list
survives intact. -/
theorem cleanRows_allEmpty_keeps_columns_witness :
    cleanRows [['a'], ['b']] [[(['a'], Value.str []), (['b'], Value.null)]] =
      ([['a'], ['b']], []) :=
  cleanRows_allEmpty_keeps_columns [['a'], ['b']]
    [[(['a'], Value.str []), (['b'], Value.null)]] (by decide)

/-- Counterexample to claim C2: for a content-type containing `xml` and a
URL ending in `.json`, the router selects the JSON strategy, not the XML
strategy — the URL-suffix test of an earlier format beats the content-type
test of a later one. -/
theorem routeFormat_xml_ct_json_url_counterexample :
    routeFormat "application/xml".toList "https://example.com/data.json".toList =
        Strategy.json ∧
      routeFormat "application/xml".toList "https://example.com/data.json".toList ≠
        Strategy.xml := by
  constructor
  · decide
  · decide

/-- Claim C2 (amended): the router tries the formats in the fixed order
CSV, NDJSON, JSON, XML, HTML, and selects a format when its content-type
matcher fires OR its URL suffix matches; content-type does not take
priority over URL suffixes of earlier formats.  In particular a
content-type containing `xml` together with a URL ending in `.json`
selects the JSON strategy whenever no CSV/NDJSON matcher fires. -/
theorem routeFormat_json_suffix_beats_xml_ct (ct url : JStr)
    (h1 : isCSVct ct = false) (h2 : endsWithSub url ".csv".toList = false)
    (h3 : isNDJSONct ct = false) (h4 : endsWithSub url ".ndjson".toList = false)
    (h5 : endsWithSub url ".jsonl".toList = false)
    (h6 : isXMLct ct = true)
    (h7 : endsWithSub url ".json".toList = true) :
    routeFormat ct url = Strategy.json := by
  unfold routeFormat
  rw [h1, h2, h3, h4, h5, h7]
  simp

/-- Witness for the amended C2 at its concrete input. -/
theorem routeFormat_json_suffix_beats_xml_ct_witness :
    routeFormat "application/xml".toList "https://example.com/data.json".toList =
      Strategy.json :=
  routeFormat_json_suffix_beats_xml_ct "application/xml".toList
    "https://example.com/data.json".toList (by decide) (by decide) (by decide) (by decide)
    (by decide) (by decide) (by decide)

/-- Claim C6: the Arbitrary-JSON Normalizer resolves the three object
shapes as the specification states: `{data:[{x:1}]}` yields columns `[x]`
and one row; `{data:{k1:{x:1},k2:{x:2}}}` yields columns `[x]` and two
rows; `{x:1,y:2}` yields columns `[x,y]` and one row. -/
theorem parseArbitraryJSON_three_shapes :
    parseArbitraryJSON
        (.obj [("data".toList, .arr [.obj [(['x'], .num ⟨1, 0⟩)]])]) =
      ([['x']], [[(['x'], .num ⟨1, 0⟩)]]) ∧
    parseArbitraryJSON
        (.obj [("data".toList,
          .obj [("k1".toList, .obj [(['x'], .num ⟨1, 0⟩)]),
                ("k2".toList, .obj [(['x'], .num ⟨2, 0⟩)])])]) =
      ([['x']], [[(['x'], .num ⟨1, 0⟩)], [(['x'], .num ⟨2, 0⟩)]]) ∧
    parseArbitraryJSON (.obj [(['x'], .num ⟨1, 0⟩), (['y'], .num ⟨2, 0⟩)]) =
      ([['x'], ['y']], [[(['x'], .num ⟨1, 0⟩), (['y'], .num ⟨2, 0⟩)]]) :=
  ⟨rfl, rfl, rfl⟩

/-- Counterexample to claim C4: in a successful ingestion with embedding
requested and the vector backend configured, the emitted events do NOT
match `log*, schema, (warn|vectorized), insights, table, log "Done."` —
further `log` events are interleaved after `schema`. -/
theorem datasetStream_event_order_counterexample :
    ¬ specClaimedOrder
        ((datasetStreamRun none "n".toList "u".toList
          (.ok ["f".toList] [['a']] [[(['a'], Value.str ['x'])]]) true true true true 1).2) := by
  intro h
  obtain ⟨pre, w, hpre, hw, heq⟩ := h
  have htr : (datasetStreamRun none "n".toList "u".toList
      (.ok ["f".toList] [['a']] [[(['a'], Value.str ['x'])]]) true true true true 1).2 =
      ([Event.log "f".toList, Event.log "Cleaned data: 1 → 1 rows, 1 cols.".toList,
        Event.schema, Event.log "Ranking rows for embedding…".toList,
        Event.log "Vectorizing 1 rows…".toList] : List Event) ++
      [Event.vectorized, Event.log "Planning charts & insights…".toList,
        Event.insights, Event.table, Event.log "Done.".toList] := by decide
  rw [htr] at heq
  obtain ⟨-, hB⟩ := List.append_inj' heq (by simp)
  simp at hB

/-- Claim C4 (amended): with embedding requested and a vector backend
configured, a successful ingestion emits `log*`, then `schema`, then two
more `log`s, `vectorized`, one more `log`, `insights`, `table` and the
final `log "Done."` — i.e. the spec's order holds only up to interleaved
`log` events, and `warn` cannot occur. -/
theorem datasetStream_success_embed_event_order
    (st : Option Snapshot) (name url : JStr) (logs : List JStr)
    (columns0 : List JStr) (rows0 : List Obj) (n : Nat) :
    ∃ pre, (∀ e ∈ pre, isLogEvent e = true) ∧
      (datasetStreamRun st name url (.ok logs columns0 rows0) true true true true n).2 =
        pre ++ [Event.schema,
          Event.log "Ranking rows for embedding…".toList,
          Event.log ("Vectorizing ".toList ++ (toString n).toList ++ " rows…".toList),
          Event.vectorized,
          Event.log "Planning charts & insights…".toList,
          Event.insights, Event.table, Event.log "Done.".toList] := by
  refine ⟨logs.map Event.log ++
    [Event.log ("Cleaned data: ".toList ++ (toString rows0.length).toList ++ " → ".toList ++
      (toString (cleanRows columns0 rows0).2.length).toList ++ " rows, ".toList ++
      (toString (cleanRows columns0 rows0).1.length).toList ++ " cols.".toList)], ?_, ?_⟩
  · intro e he
    rcases List.mem_append.mp he with he | he
    · obtain ⟨m, _, rfl⟩ := List.mem_map.mp he
      rfl
    · rcases List.mem_singleton.mp he with rfl
      rfl
  · simp [datasetStreamRun, planPhase]

/-- Counterexample to claim C5: an ingestion that fails *after* cleaning
(here: the embedding upsert throws) has already overwritten the retained
Schema Snapshot — the previous snapshot is not preserved even though the
run ends in an `error` event. -/
theorem datasetStream_snapshot_overwritten_on_late_failure :
    (datasetStreamRun (some ⟨"old".toList, "u".toList, [['z']], []⟩) "n".toList "u2".toList
        (.ok ["l".toList] [['a']] [[(['a'], Value.str ['x'])]]) true true false true 1).1 ≠
      some ⟨"old".toList, "u".toList, [['z']], []⟩ ∧
    ((datasetStreamRun (some ⟨"old".toList, "u".toList, [['z']], []⟩) "n".toList "u2".toList
        (.ok ["l".toList] [['a']] [[(['a'], Value.str ['x'])]]) true true false true 1).2.getLast? =
      some Event.error) := by
  constructor
  · decide
  · decide

/-- Claim C5 (amended): the retained Schema Snapshot is replaced wholesale
right after cleaning succeeds, not at the end of the ingestion: a run
whose fetch/parse phase throws leaves the previous snapshot unchanged, and
every run that reaches cleaning installs the new snapshot — regardless of
whether the embedding or chart-planning stages later fail. -/
theorem datasetStream_snapshot_update_policy
    (st : Option Snapshot) (name url : JStr) (logs columns0 : List JStr) (rows0 : List Obj)
    (m e eo po : Bool) (n : Nat) :
    (datasetStreamRun st name url (.fail logs) m e eo po n).1 = st ∧
    (datasetStreamRun st name url (.ok logs columns0 rows0) m e eo po n).1 =
      some { name := name, url := url, columns := (cleanRows columns0 rows0).1,
             sample := (cleanRows columns0 rows0).2.take 2000 } := by
  constructor
  · rfl
  · simp only [datasetStreamRun, planPhase]
    cases m <;> cases e <;> cases eo <;> cases po <;> simp

/-! ### Idempotence of the Row Cleaner (claim C8) -/

theorem trimChars_eq_rdropWhile (s : JStr) :
    trimChars s = List.rdropWhile Char.isWhitespace (List.dropWhile Char.isWhitespace s) := rfl

/-- The first element surviving a `dropWhile` fails the predicate. -/
theorem dropWhileHeadNot (p : Char → Bool) (l : List Char) (a : Char) (t : List Char)
    (h : l.dropWhile p = a :: t) : p a = false := by
  induction l with
  | nil => simp at h
  | cons b l ih =>
    rw [List.dropWhile_cons] at h
    by_cases hb : p b = true
    · rw [if_pos hb] at h
      exact ih h
    · rw [if_neg hb] at h
      cases h
      simpa using hb

theorem trimChars_idem (s : JStr) : trimChars (trimChars s) = trimChars s := by
  rw [trimChars_eq_rdropWhile s, trimChars_eq_rdropWhile]
  obtain ⟨r, hr⟩ :=
    List.rdropWhile_prefix Char.isWhitespace (List.dropWhile Char.isWhitespace s)
  have hd : List.dropWhile Char.isWhitespace
      (List.rdropWhile Char.isWhitespace (List.dropWhile Char.isWhitespace s)) =
      List.rdropWhile Char.isWhitespace (List.dropWhile Char.isWhitespace s) := by
    cases ht : List.rdropWhile Char.isWhitespace (List.dropWhile Char.isWhitespace s) with
    | nil => rfl
    | cons a t' =>
      have hu : List.dropWhile Char.isWhitespace s = a :: (t' ++ r) := by
        rw [← hr, ht]
        rfl
      have ha : Char.isWhitespace a = false := dropWhileHeadNot _ s a _ hu
      rw [List.dropWhile_cons, if_neg (by simp [ha])]
  rw [hd, List.rdropWhile_idempotent]

/-- The per-cell cleaning step is idempotent. -/
theorem cleanVal_idem (v : Value) : cleanVal (cleanVal v) = cleanVal v := by
  cases v with
  | num n => rfl
  | null => decide
  | undefined => decide
  | str s =>
    show cleanVal (toNum (.str (trimChars s))) = toNum (.str (trimChars s))
    have htt : trimChars (trimChars s) = trimChars s := trimChars_idem s
    by_cases hshape : numericShape (trimChars s) = true
    · cases hparse : parseFloatChars ((trimChars s).filter (fun c => c ≠ ',')) with
      | some n =>
        have h1 : toNum (.str (trimChars s)) = .num n := by
          simp only [ne_eq, decide_not] at hparse
          simp [toNum, jsValToString, hshape, hparse]
        rw [h1]
        rfl
      | none =>
        have h1 : toNum (.str (trimChars s)) = .str (trimChars s) := by
          simp only [ne_eq, decide_not] at hparse
          simp [toNum, jsValToString, hshape, hparse]
        rw [h1]
        show toNum (.str (trimChars (trimChars s))) = Value.str (trimChars s)
        rw [htt]
        exact h1
    · have h1 : toNum (.str (trimChars s)) = .str (trimChars s) := by
        simp [toNum, jsValToString, hshape]
      rw [h1]
      show toNum (.str (trimChars (trimChars s))) = Value.str (trimChars s)
      rw [htt]
      exact h1

/-- `cleanRow` only looks at the cleaned cells of its input. -/
theorem cleanRow_congr (cols : List JStr) (r₁ r₂ : Obj)
    (h : ∀ c ∈ cols, cleanVal (objGet r₁ c) = cleanVal (objGet r₂ c)) :
    cleanRow cols r₁ = cleanRow cols r₂ := by
  unfold cleanRow
  have H : ∀ (cs : List JStr), (∀ c ∈ cs, cleanVal (objGet r₁ c) = cleanVal (objGet r₂ c)) →
      ∀ rr : Obj,
        cs.foldl (fun rr c => objSet rr c (cleanVal (objGet r₁ c))) rr =
          cs.foldl (fun rr c => objSet rr c (cleanVal (objGet r₂ c))) rr := by
    intro cs
    induction cs with
    | nil => intro _ _; rfl
    | cons c cs ih =>
      intro h rr
      simp only [List.foldl_cons]
      rw [h c (List.mem_cons_self c cs)]
      exact ih (fun x hx => h x (List.mem_cons_of_mem _ hx)) _
  exact H cols h []

/-- Cleaning an already-cleaned row changes nothing. -/
theorem cleanRow_idem (cols : List JStr) (r : Obj) :
    cleanRow cols (cleanRow cols r) = cleanRow cols r :=
  cleanRow_congr cols _ r (fun c hc => by rw [objGet_cleanRow cols r c hc, cleanVal_idem])

/-- The cleaning loop only emits rows that are not fully empty. -/
theorem cleanLoop_not_empty (cols : List JStr) (rows : List Obj) (seen : List Obj) :
    ∀ rr ∈ cleanLoop cols seen rows, isEmptyRow cols rr = false := by
  induction rows generalizing seen with
  | nil => simp [cleanLoop]
  | cons r rs ih =>
    intro rr hrr
    simp only [cleanLoop] at hrr
    by_cases h1 : isEmptyRow cols (cleanRow cols r) = true
    · rw [if_pos h1] at hrr
      exact ih seen rr hrr
    · rw [if_neg h1] at hrr
      by_cases h2 : List.contains seen (dedupKey (cleanRow cols r)) = true
      · rw [if_pos h2] at hrr
        exact ih seen rr hrr
      · rw [if_neg h2] at hrr
        rcases List.mem_cons.mp hrr with rfl | hrr
        · simpa using h1
        · exact ih _ rr hrr

/-- The cleaning loop emits rows with pairwise distinct dedup keys, none
of which was already seen. -/
theorem cleanLoop_keys (cols : List JStr) (rows : List Obj) (seen : List Obj) :
    List.Pairwise (fun a b => dedupKey a ≠ dedupKey b) (cleanLoop cols seen rows) ∧
      ∀ rr ∈ cleanLoop cols seen rows, dedupKey rr ∉ seen := by
  induction rows generalizing seen with
  | nil => exact ⟨List.Pairwise.nil, by simp [cleanLoop]⟩
  | cons r rs ih =>
    simp only [cleanLoop]
    by_cases h1 : isEmptyRow cols (cleanRow cols r) = true
    · rw [if_pos h1]
      exact ih seen
    · rw [if_neg h1]
      by_cases h2 : List.contains seen (dedupKey (cleanRow cols r)) = true
      · rw [if_pos h2]
        exact ih seen
      · rw [if_neg h2]
        obtain ⟨hpw, hnotin⟩ := ih (dedupKey (cleanRow cols r) :: seen)
        constructor
        · refine List.Pairwise.cons ?_ hpw
          intro b hb heq
          exact hnotin b hb (heq ▸ List.mem_cons_self _ _)
        · intro rr hrr
          rcases List.mem_cons.mp hrr with rfl | hrr
          · intro hmem
            exact h2 (List.elem_iff.mpr hmem)
          · intro hmem
            exact hnotin rr hrr (List.mem_cons_of_mem _ hmem)

/-- The cleaning loop is the identity on a list of already-clean,
non-empty, key-distinct rows whose keys are unseen. -/
theorem cleanLoop_fixed (cols : List JStr) : ∀ (out seen : List Obj),
    (∀ rr ∈ out, cleanRow cols rr = rr) →
    (∀ rr ∈ out, isEmptyRow cols rr = false) →
    List.Pairwise (fun a b => dedupKey a ≠ dedupKey b) out →
    (∀ rr ∈ out, dedupKey rr ∉ seen) →
    cleanLoop cols seen out = out := by
  intro out
  induction out with
  | nil => intro seen _ _ _ _; rfl
  | cons rr rest ih =>
    intro seen h1 h2 h3 h4
    have e1 : isEmptyRow cols rr = false := h2 rr (List.mem_cons_self rr rest)
    have e2 : List.contains seen (dedupKey rr) = false := by
      refine Bool.eq_false_iff.mpr (fun hc => ?_)
      exact h4 rr (List.mem_cons_self rr rest) (List.elem_iff.mp hc)
    simp only [cleanLoop]
    rw [h1 rr (List.mem_cons_self rr rest), e1, e2]
    simp only [Bool.false_eq_true, if_false]
    rw [ih (dedupKey rr :: seen) (fun x hx => h1 x (List.mem_cons_of_mem _ hx))
      (fun x hx => h2 x (List.mem_cons_of_mem _ hx)) (List.pairwise_cons.mp h3).2 ?_]
    intro x hx hmem
    rcases List.mem_cons.mp hmem with heq | hmem
    · exact (List.pairwise_cons.mp h3).1 x hx heq.symm
    · exact h4 x (List.mem_cons_of_mem _ hx) hmem

/-- Counterexample to claim C8: the Row Cleaner is not idempotent.  Two
rows that differ only in a column that gets pruned (`b`: empty string in
one, null in the other) survive deduplication in the first pass, become
identical when `b` is pruned, and the second pass then drops one of
them. -/
theorem cleanRows_not_idempotent_counterexample :
    cleanRows
        (cleanRows [['a'], ['b']]
          [[(['a'], Value.str ['1']), (['b'], Value.str [])],
           [(['a'], Value.str ['1']), (['b'], Value.null)]]).1
        (cleanRows [['a'], ['b']]
          [[(['a'], Value.str ['1']), (['b'], Value.str [])],
           [(['a'], Value.str ['1']), (['b'], Value.null)]]).2 ≠
      cleanRows [['a'], ['b']]
        [[(['a'], Value.str ['1']), (['b'], Value.str [])],
         [(['a'], Value.str ['1']), (['b'], Value.null)]] := by decide

/-- Claim C8 (amended): the Row Cleaner is idempotent on every input on
which it prunes no column (its output column list equals its input column
list): re-cleaning the output changes neither columns nor rows.  (When
pruning does occur, a second clean may drop rows that became duplicates,
see the counterexample.) -/
theorem cleanRows_idempotent_no_prune (cols : List JStr) (rows : List Obj)
    (h : (cleanRows cols rows).1 = cols) :
    cleanRows (cleanRows cols rows).1 (cleanRows cols rows).2 = cleanRows cols rows := by
  by_cases hcond :
      (cols.filter
          (fun c => (cleanLoop cols [] rows).any (fun r => !isEmptyVal (objGet r c)))).length ≠ 0 ∧
        (cols.filter
          (fun c => (cleanLoop cols [] rows).any (fun r => !isEmptyVal (objGet r c)))).length ≠
          cols.length
  · exfalso
    have h1 : (cleanRows cols rows).1 =
        cols.filter
          (fun c => (cleanLoop cols [] rows).any (fun r => !isEmptyVal (objGet r c))) := by
      simp only [cleanRows]
      rw [if_pos hcond]
    exact hcond.2 (by rw [← h1, h])
  · have hcr : cleanRows cols rows = (cols, cleanLoop cols [] rows) := by
      simp only [cleanRows]
      rw [if_neg hcond]
    rw [hcr]
    have hfix : cleanLoop cols [] (cleanLoop cols [] rows) = cleanLoop cols [] rows := by
      refine cleanLoop_fixed cols (cleanLoop cols [] rows) [] ?_
        (cleanLoop_not_empty cols rows []) (cleanLoop_keys cols rows []).1 (by simp)
      intro rr hrr
      obtain ⟨r, rfl⟩ := cleanLoop_mem cols [] rows rr hrr
      exact cleanRow_idem cols r
    simp only [cleanRows]
    rw [hfix, if_neg hcond]

/-- Witness for the amended C8 on a concrete table that needs no
pruning. -/
theorem cleanRows_idempotent_no_prune_witness :
    cleanRows
        (cleanRows [['a'], ['b']]
          [[(['a'], Value.str ['1']), (['b'], Value.str ['x'])],
           [(['a'], Value.str ['1']), (['b'], Value.str ['x'])]]).1
        (cleanRows [['a'], ['b']]
          [[(['a'], Value.str ['1']), (['b'], Value.str ['x'])],
           [(['a'], Value.str ['1']), (['b'], Value.str ['x'])]]).2 =
      cleanRows [['a'], ['b']]
        [[(['a'], Value.str ['1']), (['b'], Value.str ['x'])],
         [(['a'], Value.str ['1']), (['b'], Value.str ['x'])]] :=
  cleanRows_idempotent_no_prune [['a'], ['b']]
    [[(['a'], Value.str ['1']), (['b'], Value.str ['x'])],
     [(['a'], Value.str ['1']), (['b'], Value.str ['x'])]] (by decide)

/-! ### Synthetic column names for unnamed header cells (claim C9) -/

/-- `rowBuild` never loses keys it has already written. -/
theorem hasKey_rowBuild_of (rr : Obj) (i : Nat) (hs vs : List JStr) (k : JStr)
    (h : hasKey rr k = true) : hasKey (rowBuild rr i hs vs) k = true := by
  induction hs generalizing rr i vs with
  | nil => exact h
  | cons h0 hs' ih =>
    simp only [rowBuild]
    refine ih _ _ _ ?_
    rw [hasKey_objSet, h]
    rfl

/-- Every header position contributes its key — the header cell itself, or
`col<index>` when the cell is empty — to every built row. -/
theorem hasKey_rowBuild (hs vs : List JStr) (rr : Obj) (i0 j : Nat) (cell : JStr)
    (hj : hs[j]? = some cell) :
    hasKey (rowBuild rr i0 hs vs) (if cell = [] then colName (i0 + j) else cell) = true := by
  induction hs generalizing rr i0 j vs with
  | nil => simp at hj
  | cons h0 hs' ih =>
    cases j with
    | zero =>
      rw [List.getElem?_cons_zero] at hj
      injection hj with hj
      subst hj
      simp only [rowBuild, Nat.add_zero]
      refine hasKey_rowBuild_of _ _ _ _ _ ?_
      rw [hasKey_objSet]
      by_cases h0e : h0 = [] <;> simp [h0e]
    | succ j' =>
      rw [List.getElem?_cons_succ] at hj
      have harith : i0 + (j' + 1) = (i0 + 1) + j' := by omega
      rw [harith]
      simp only [rowBuild]
      exact ih _ _ _ _ hj

/-- Counterexample to claim C9: for header `a,,b`, the synthetic name
`col1` is used as the key of the second field in every row, but the
returned column list keeps the empty string (not `col1`) as its second
entry. -/
theorem parseCSV_unnamed_header_counterexample :
    ((parseCSV "a,,b\n1,2,3".toList).1[1]? = some []) ∧
      ((parseCSV "a,,b\n1,2,3".toList).1[1]? ≠ some ("col1".toList)) ∧
      (parseCSV "a,,b\n1,2,3".toList).2 =
        [[(['a'], .str ['1']), ("col1".toList, .str ['2']), (['b'], .str ['3'])]] := by
  refine ⟨by decide, by decide, by decide⟩

/-- Claim C9 (amended): for every CSV input whose header has an empty cell
at 0-based position `i`, the synthetic name `col<i>` is the key of that
field in every returned row — while the returned column list keeps the
empty name at position `i`. -/
theorem parseCSV_unnamed_header_key (text : JStr) (i : Nat)
    (h : (parseCSV text).1[i]? = some []) :
    ∀ r ∈ (parseCSV text).2, hasKey r (colName i) = true := by
  rcases hl : (splitCh '\n' (text.filter (fun c => c ≠ '\r'))).filter (fun l => l ≠ []) with
    _ | ⟨l0, rest⟩
  · have hp : parseCSV text = ([], []) := by
      unfold parseCSV
      rw [hl]
      rfl
    rw [hp] at h
    simp at h
  · have hp : parseCSV text = parseCSVlines (l0 :: rest) := by
      unfold parseCSV
      rw [hl]
    rw [hp] at h ⊢
    simp only [parseCSVlines] at h ⊢
    intro r hr
    obtain ⟨ln, _, rfl⟩ := List.mem_map.mp hr
    have := hasKey_rowBuild ((parseLine l0).map trimChars) (parseLine ln) [] 0 i [] h
    simpa using this

/-- Witness for the amended C9 at the counterexample's input. -/
theorem parseCSV_unnamed_header_key_witness :
    hasKey [(['a'], Value.str ['1']), ("col1".toList, Value.str ['2']), (['b'], Value.str ['3'])]
      (colName 1) = true :=
  parseCSV_unnamed_header_key "a,,b\n1,2,3".toList 1 (by decide)
    [(['a'], Value.str ['1']), ("col1".toList, Value.str ['2']), (['b'], Value.str ['3'])]
    (by decide)

/-! ### CSV quoting round-trip (claims C3 and C7) -/

theorem mem_doubleQuotes (a : Char) (s : JStr) : a ∈ doubleQuotes s ↔ a ∈ s := by
  induction s with
  | nil => simp [doubleQuotes]
  | cons c s ih =>
    by_cases hc : c = '"' <;>
      simp [doubleQuotes, hc, List.mem_cons] at ih ⊢ <;>
      rw [← ih] <;> simp [doubleQuotes] <;> tauto

theorem doubleQuotes_of_no_quote (s : JStr) (h : '"' ∉ s) : doubleQuotes s = s := by
  induction s with
  | nil => rfl
  | cons c s ih =>
    have hc : c ≠ '"' := fun hc => h (hc ▸ List.mem_cons_self c s)
    simp only [doubleQuotes, List.flatMap_cons, if_neg hc]
    have := ih (fun hm => h (List.mem_cons_of_mem _ hm))
    simp only [doubleQuotes] at this
    rw [this]
    rfl

/-- Membership through `csvCellChars`: only quotes are introduced. -/
theorem mem_csvCellChars (a : Char) (s : JStr) (ha : a ≠ '"')
    (h : a ∈ csvCellChars s) : a ∈ s := by
  unfold csvCellChars at h
  split at h
  · rcases List.mem_cons.mp h with rfl | h
    · exact absurd rfl ha
    · rcases List.mem_append.mp h with h | h
      · exact (mem_doubleQuotes a s).mp h
      · simp at h
        exact absurd h ha
  · exact (mem_doubleQuotes a s).mp h

/-- `intercalate` over at least two pieces peels off the first piece and
one separator. -/
theorem intercalate_cons₂ (sep x : JStr) (xs : List JStr) (h : xs ≠ []) :
    List.intercalate sep (x :: xs) = x ++ sep ++ List.intercalate sep xs := by
  cases xs with
  | nil => exact absurd rfl h
  | cons y ys =>
    simp [List.intercalate, List.intersperse]

/-- Characters of an `intercalate` come from the separator or one of the
pieces. -/
theorem mem_intercalate_cases (a : Char) (sep : JStr) (ls : List JStr)
    (h : a ∈ List.intercalate sep ls) : a ∈ sep ∨ ∃ l ∈ ls, a ∈ l := by
  induction ls with
  | nil => simp [List.intercalate] at h
  | cons x xs ih =>
    cases xs with
    | nil =>
      simp [List.intercalate] at h
      exact Or.inr ⟨x, List.mem_cons_self x [], h⟩
    | cons y ys =>
      rw [intercalate_cons₂ sep x (y :: ys) (by simp)] at h
      rcases List.mem_append.mp h with h | h
      · rcases List.mem_append.mp h with h | h
        · exact Or.inr ⟨x, List.mem_cons_self _ _, h⟩
        · exact Or.inl h
      · rcases ih h with h | ⟨l, hl, hal⟩
        · exact Or.inl h
        · exact Or.inr ⟨l, List.mem_cons_of_mem _ hl, hal⟩

/-- Processing a quote-free, comma-free chunk outside a quoted region just
accumulates it into the current field. -/
theorem parseLineGo_plain (s : JStr) (h : ∀ c ∈ s, c ≠ '"' ∧ c ≠ ',')
    (cur : JStr) (out : List JStr) (rest : JStr) :
    parseLineGo false cur out (s ++ rest) = parseLineGo false (cur ++ s) out rest := by
  induction s generalizing cur with
  | nil => simp
  | cons c s ih =>
    have hc := h c (List.mem_cons_self c s)
    have step : parseLineGo false cur out (c :: (s ++ rest)) =
        parseLineGo false (cur ++ [c]) out (s ++ rest) := by
      rw [parseLineGo.eq_def]
      simp [hc.1, hc.2]
    rw [List.cons_append, step, ih (fun x hx => h x (List.mem_cons_of_mem _ hx)) (cur ++ [c])]
    simp

/-- Processing the quote-doubled image of `s` inside a quoted region, up
to the closing quote, accumulates `s` and leaves the quoted region —
provided the closing quote is followed by a comma or the end of line. -/
theorem parseLineGo_quoted (s : JStr) (cur : JStr) (out : List JStr) (rest : JStr)
    (h : rest = [] ∨ ∃ r', rest = ',' :: r') :
    parseLineGo true cur out (doubleQuotes s ++ '"' :: rest) =
      parseLineGo false (cur ++ s) out rest := by
  induction s generalizing cur with
  | nil =>
    rcases h with rfl | ⟨r', rfl⟩
    · simp [doubleQuotes, parseLineGo]
    · simp [doubleQuotes, parseLineGo]
  | cons c s ih =>
    by_cases hc : c = '"'
    · subst hc
      have hdq : doubleQuotes ('"' :: s) ++ '"' :: rest =
          '"' :: '"' :: (doubleQuotes s ++ '"' :: rest) := by
        simp [doubleQuotes]
      rw [hdq]
      have step : parseLineGo true cur out ('"' :: '"' :: (doubleQuotes s ++ '"' :: rest)) =
          parseLineGo true (cur ++ ['"']) out (doubleQuotes s ++ '"' :: rest) := by
        rw [parseLineGo.eq_def]
        simp
      rw [step, ih (cur ++ ['"'])]
      simp
    · have hdq : doubleQuotes (c :: s) ++ '"' :: rest =
          c :: (doubleQuotes s ++ '"' :: rest) := by
        simp [doubleQuotes, hc]
      rw [hdq]
      have step : parseLineGo true cur out (c :: (doubleQuotes s ++ '"' :: rest)) =
          parseLineGo true (cur ++ [c]) out (doubleQuotes s ++ '"' :: rest) := by
        rw [parseLineGo.eq_def]
        simp [hc]
      rw [step, ih (cur ++ [c])]
      simp

/-- Cells free of quotes, commas and newlines are left unquoted. -/
theorem csvCellChars_plain (c : JStr)
    (hq : ((doubleQuotes c).any fun ch => ch = '"' || ch = ',' || ch = '\n') = false) :
    csvCellChars c = c := by
  unfold csvCellChars
  rw [hq]
  simp only [Bool.false_eq_true, if_false]
  refine doubleQuotes_of_no_quote c (fun hm => ?_)
  have hdq : '"' ∈ doubleQuotes c := (mem_doubleQuotes '"' c).mpr hm
  have hall : ∀ x ∈ doubleQuotes c, ¬((x = '"' || x = ',' || x = '\n') = true) := by
    simpa [List.any_eq_true] using hq
  exact hall '"' hdq (by simp)

/-- The characters of an unquoted cell are neither quotes nor commas. -/
theorem csvCellChars_plain_chars (c : JStr)
    (hq : ((doubleQuotes c).any fun ch => ch = '"' || ch = ',' || ch = '\n') = false) :
    ∀ ch ∈ c, ch ≠ '"' ∧ ch ≠ ',' := by
  intro ch hch
  have hdq : ch ∈ doubleQuotes c := (mem_doubleQuotes ch c).mpr hch
  have hall : ∀ x ∈ doubleQuotes c, ¬((x = '"' || x = ',' || x = '\n') = true) := by
    simpa [List.any_eq_true] using hq
  have := hall ch hdq
  simp only [Bool.or_eq_true, decide_eq_true_eq, not_or] at this
  exact ⟨this.1.1, this.1.2⟩

/-- The tokenizer inverts `csvCell`-encoding of any non-empty cell list:
processing the comma-joined encoded cells appends exactly those cells to
the output. -/
theorem parseLineGo_intercalate (cells : List JStr) (h : cells ≠ []) (out : List JStr) :
    parseLineGo false [] out (List.intercalate [','] (cells.map csvCellChars)) = out ++ cells := by
  induction cells generalizing out with
  | nil => exact absurd rfl h
  | cons c cs ih =>
    cases cs with
    | nil =>
      have hsing : List.intercalate [','] ([c].map csvCellChars) = csvCellChars c := by
        simp [List.intercalate]
      rw [hsing]
      by_cases hq : ((doubleQuotes c).any fun ch => ch = '"' || ch = ',' || ch = '\n') = true
      · have henc : csvCellChars c = '"' :: (doubleQuotes c ++ ['"']) := by
          unfold csvCellChars
          rw [if_pos hq]
          rfl
        rw [henc]
        have step : parseLineGo false [] out ('"' :: (doubleQuotes c ++ ['"'])) =
            parseLineGo true [] out (doubleQuotes c ++ ['"']) := by
          rw [parseLineGo.eq_def]
          simp
        rw [step]
        have hform : doubleQuotes c ++ ['"'] = doubleQuotes c ++ '"' :: ([] : JStr) := rfl
        rw [hform, parseLineGo_quoted c [] out [] (Or.inl rfl)]
        simp [parseLineGo]
      · have hq' := Bool.eq_false_iff.mpr hq
        rw [csvCellChars_plain c hq']
        have hform : (c : JStr) = c ++ ([] : JStr) := by simp
        rw [hform, parseLineGo_plain c (csvCellChars_plain_chars c hq') [] out []]
        simp [parseLineGo]
    | cons c2 cs' =>
      rw [List.map_cons,
        intercalate_cons₂ [','] (csvCellChars c) ((c2 :: cs').map csvCellChars) (by simp)]
      by_cases hq : ((doubleQuotes c).any fun ch => ch = '"' || ch = ',' || ch = '\n') = true
      · have henc : csvCellChars c = '"' :: (doubleQuotes c ++ ['"']) := by
          unfold csvCellChars
          rw [if_pos hq]
          rfl
        rw [henc]
        have hform : ('"' :: (doubleQuotes c ++ ['"'])) ++ [','] ++
            List.intercalate [','] ((c2 :: cs').map csvCellChars) =
            '"' :: (doubleQuotes c ++ '"' :: ',' ::
              List.intercalate [','] ((c2 :: cs').map csvCellChars)) := by
          simp
        rw [hform]
        have step : parseLineGo false [] out ('"' :: (doubleQuotes c ++ '"' :: ',' ::
            List.intercalate [','] ((c2 :: cs').map csvCellChars))) =
            parseLineGo true [] out (doubleQuotes c ++ '"' :: ',' ::
              List.intercalate [','] ((c2 :: cs').map csvCellChars)) := by
          rw [parseLineGo.eq_def]
          simp
        rw [step, parseLineGo_quoted c [] out _ (Or.inr ⟨_, rfl⟩)]
        have comma : parseLineGo false ([] ++ c) out (',' ::
            List.intercalate [','] ((c2 :: cs').map csvCellChars)) =
            parseLineGo false [] (out ++ [[] ++ c])
              (List.intercalate [','] ((c2 :: cs').map csvCellChars)) := by
          rw [parseLineGo.eq_def]
          simp
        rw [comma, ih (by simp)]
        simp
      · have hq' := Bool.eq_false_iff.mpr hq
        rw [csvCellChars_plain c hq']
        have hform : c ++ [','] ++ List.intercalate [','] ((c2 :: cs').map csvCellChars) =
            c ++ (',' :: List.intercalate [','] ((c2 :: cs').map csvCellChars)) := by
          simp
        rw [hform, parseLineGo_plain c (csvCellChars_plain_chars c hq') [] out _]
        have comma : parseLineGo false ([] ++ c) out (',' ::
            List.intercalate [','] ((c2 :: cs').map csvCellChars)) =
            parseLineGo false [] (out ++ [[] ++ c])
              (List.intercalate [','] ((c2 :: cs').map csvCellChars)) := by
          rw [parseLineGo.eq_def]
          simp
        rw [comma, ih (by simp)]
        simp

/-- Counterexample to claim C3: a quoted field containing a newline is NOT
parsed as one field of one row — `parseCSV` splits the input on newlines
before any quote handling, so `"x\ny"` under header `a` yields two rows
(`x` and `y`), not one. -/
theorem parseCSV_quoted_newline_counterexample :
    (parseCSV "a\n\"x\ny\"".toList).2 =
        [[(['a'], Value.str ['x'])], [(['a'], Value.str ['y'])]] ∧
      (parseCSV "a\n\"x\ny\"".toList).2.length ≠ 1 := by
  refine ⟨by decide, by decide⟩

/-- Claim C3 (amended): within one physical line, a field wrapped in
double quotes may contain commas and is parsed as a single field value, an
internal doubled quote is an escaped literal quote, and a closing quote
ends the quoted region: the tokenizer inverts the CSV cell encoding of any
non-empty list of newline-free cells.  Quoted fields cannot contain
newlines, because the input is split on newlines before quote handling. -/
theorem parseLine_inverts_csv_cells (cells : List JStr) (h1 : cells ≠ [])
    (h2 : ∀ c ∈ cells, '\n' ∉ c) :
    parseLine (List.intercalate [','] (cells.map csvCellChars)) = cells := by
  unfold parseLine
  rw [parseLineGo_intercalate cells h1 []]
  rfl

/-- Witness for the amended C3: a field with an embedded comma and an
escaped quote round-trips. -/
theorem parseLine_inverts_csv_cells_witness :
    parseLine
        (List.intercalate [','] (["a,b".toList, "c\"d".toList, "e".toList].map csvCellChars)) =
      ["a,b".toList, "c\"d".toList, "e".toList] :=
  parseLine_inverts_csv_cells ["a,b".toList, "c\"d".toList, "e".toList] (by decide) (by decide)

/-! ### `toCSV` / `parseCSV` round-trip (claim C7) -/

/-- The string form a cell takes inside `toCSV` before escaping:
`null`/`undefined` render empty (`csvCell`'s `v == null` early return),
everything else by `String(v)`. -/
def cellString (v : Value) : JStr :=
  match v with
  | .null => []
  | .undefined => []
  | v => jsValToString v

theorem csvCell_eq (v : Value) : csvCell v = csvCellChars (cellString v) := by
  cases v <;> rfl

/-- Counterexample to claim C7: with a single column, a row whose cell is
the empty string serializes to an empty line, which the tokenizer drops —
the row set is not reproduced even though no cell needs escaping. -/
theorem toCSV_parseCSV_no_roundtrip_counterexample :
    parseCSV (toCSV [['a']] [[(['a'], Value.str [])], [(['a'], Value.str ['x'])]]) ≠
      ([['a']], [[(['a'], Value.str [])], [(['a'], Value.str ['x'])]]) ∧
    (parseCSV (toCSV [['a']] [[(['a'], Value.str [])], [(['a'], Value.str ['x'])]])).2.length = 1 := by
  refine ⟨by decide, by decide⟩

/-- Claim C7 (amended): `toCSV` followed by the CSV tokenizer reproduces
`(columns, rows)` modulo string coercion of the cell values, provided the
column names are nonempty, trim-invariant and free of quote, comma,
newline and CR characters, no cell's string form contains a newline or CR
(commas and quotes are fine — escaping is exercised and undone exactly),
no row serializes to an entirely empty line (automatic with at least two
columns), and there are at most 20000 rows.  Each reproduced row maps each
column name to the string form of the original cell. -/
theorem toCSV_parseCSV_roundtrip (columns : List JStr) (rows : List Obj)
    (hne : columns ≠ [])
    (hname : ∀ c ∈ columns, c ≠ [] ∧ trimChars c = c ∧
      ∀ ch ∈ c, ch ≠ '"' ∧ ch ≠ ',' ∧ ch ≠ '\n' ∧ ch ≠ '\r')
    (hcell : ∀ r ∈ rows, ∀ c ∈ columns,
      '\n' ∉ cellString (objGet r c) ∧ '\r' ∉ cellString (objGet r c))
    (hrowline : ∀ r ∈ rows, rowLine columns r ≠ [])
    (hcap : rows.length ≤ 20000) :
    parseCSV (toCSV columns rows) =
      (columns, rows.map (fun r =>
        rowOfHeader columns (columns.map (fun c => cellString (objGet r c))))) := by
  -- the encoded data cells are the `csvCellChars` image of the cell strings
  have henc : ∀ r : Obj, columns.map (fun c => csvCell (objGet r c)) =
      (columns.map (fun c => cellString (objGet r c))).map csvCellChars := by
    intro r
    rw [List.map_map]
    exact List.map_eq_map_iff.mpr (fun c _ => csvCell_eq (objGet r c))
  -- column names encode to themselves
  have hqcol : ∀ c ∈ columns,
      ((doubleQuotes c).any fun ch => ch = '"' || ch = ',' || ch = '\n') = false := by
    intro c hc
    have hnq : '"' ∉ c := fun hm => ((hname c hc).2.2 '"' hm).1 rfl
    rw [doubleQuotes_of_no_quote c hnq]
    refine List.any_eq_false.mpr ?_
    intro ch hch
    have := (hname c hc).2.2 ch hch
    simp [this.1, this.2.1, this.2.2.1]
  have hencH : columns.map csvCellChars = columns := by
    calc columns.map csvCellChars = columns.map id :=
          List.map_eq_map_iff.mpr (fun c hc => csvCellChars_plain c (hqcol c hc))
      _ = columns := List.map_id columns
  have htrim : columns.map trimChars = columns := by
    calc columns.map trimChars = columns.map id :=
          List.map_eq_map_iff.mpr (fun c hc => (hname c hc).2.1)
      _ = columns := List.map_id columns
  -- the header line parses back to the column names
  have hheader : (parseLine (List.intercalate [','] columns)).map trimChars = columns := by
    have h1 : List.intercalate [','] columns =
        List.intercalate [','] (columns.map csvCellChars) := by rw [hencH]
    rw [h1]
    unfold parseLine
    rw [parseLineGo_intercalate columns hne []]
    rw [List.nil_append, htrim]
  -- each data line parses back to the row's cell strings
  have hrow : ∀ r ∈ rows, parseLine (rowLine columns r) =
      columns.map (fun c => cellString (objGet r c)) := by
    intro r _
    unfold rowLine
    rw [henc r]
    unfold parseLine
    rw [parseLineGo_intercalate _ (fun hmap => hne (by simpa using hmap)) []]
    rw [List.nil_append]
  -- no piece of the serialized text contains a newline
  have hnlH : '\n' ∉ List.intercalate [','] columns := by
    intro hm
    rcases mem_intercalate_cases _ _ _ hm with h | ⟨l, hl, hal⟩
    · simp at h
    · exact ((hname l hl).2.2 '\n' hal).2.2.1 rfl
  have hnlRow : ∀ r ∈ rows, '\n' ∉ rowLine columns r := by
    intro r hrmem hm
    unfold rowLine at hm
    rcases mem_intercalate_cases _ _ _ hm with h | ⟨l, hl, hal⟩
    · simp at h
    · obtain ⟨c, hc, rfl⟩ := List.mem_map.mp hl
      rw [csvCell_eq] at hal
      exact (hcell r hrmem c hc).1 (mem_csvCellChars _ _ (by decide) hal)
  -- the header line is non-empty
  have hhdrne : List.intercalate [','] columns ≠ [] := by
    cases columns with
    | nil => exact absurd rfl hne
    | cons c0 cs =>
      cases cs with
      | nil =>
        have h1 : List.intercalate [','] [c0] = c0 := by simp [List.intercalate]
        rw [h1]
        exact (hname c0 (List.mem_cons_self _ _)).1
      | cons c1 cs' =>
        rw [intercalate_cons₂ [','] c0 (c1 :: cs') (by simp)]
        simp
  -- the CR-stripping filter is the identity on the serialized text
  have hcr : (toCSV columns rows).filter (fun c => c ≠ '\r') = toCSV columns rows := by
    refine List.filter_eq_self.mpr ?_
    intro a ha
    simp only [decide_eq_true_eq]
    unfold toCSV at ha
    rcases List.mem_append.mp ha with ha | ha
    · rcases mem_intercalate_cases _ _ _ ha with h | ⟨l, hl, hal⟩
      · simp at h
        subst h
        decide
      · exact ((hname l hl).2.2 a hal).2.2.2
    · rcases List.mem_cons.mp ha with rfl | ha
      · decide
      · rcases mem_intercalate_cases _ _ _ ha with h | ⟨l, hl, hal⟩
        · simp at h
          subst h
          decide
        · obtain ⟨r, hrmem, rfl⟩ := List.mem_map.mp hl
          unfold rowLine at hal
          rcases mem_intercalate_cases _ _ _ hal with h | ⟨l2, hl2, hal2⟩
          · simp at h
            subst h
            decide
          · obtain ⟨c, hc, rfl⟩ := List.mem_map.mp hl2
            rw [csvCell_eq] at hal2
            intro har
            subst har
            exact (hcell r hrmem c hc).2 (mem_csvCellChars _ _ (by decide) hal2)
  unfold parseCSV splitCh
  rw [hcr]
  cases rows with
  | nil =>
    have htext : toCSV columns [] = List.intercalate [','] columns ++ ['\n'] := by
      unfold toCSV
      simp [List.intercalate]
    have htext2 : List.intercalate ['\n'] [List.intercalate [','] columns, ([] : JStr)] =
        List.intercalate [','] columns ++ ['\n'] := by
      rw [intercalate_cons₂ ['\n'] _ [[]] (by simp)]
      simp [List.intercalate]
    rw [htext, ← htext2,
      List.splitOn_intercalate _ '\n'
        (by
          intro l hl
          rcases List.mem_cons.mp hl with rfl | hl
          · exact hnlH
          · simp at hl
            subst hl
            simp)
        (by simp)]
    have hfil : [List.intercalate [','] columns, ([] : JStr)].filter (fun l => l ≠ []) =
        [List.intercalate [','] columns] := by
      simp [List.filter_cons, hhdrne]
    rw [hfil]
    simp only [parseCSVlines]
    rw [hheader]
    simp
  | cons r0 rs =>
    have htext : toCSV columns (r0 :: rs) =
        List.intercalate ['\n']
          (List.intercalate [','] columns :: (r0 :: rs).map (rowLine columns)) := by
      rw [intercalate_cons₂ ['\n'] _ _ (by simp)]
      unfold toCSV
      simp
    rw [htext,
      List.splitOn_intercalate _ '\n'
        (by
          intro l hl
          rcases List.mem_cons.mp hl with rfl | hl
          · exact hnlH
          · obtain ⟨r, hrmem, rfl⟩ := List.mem_map.mp hl
            exact hnlRow r hrmem)
        (by simp)]
    have hfil : (List.intercalate [','] columns :: (r0 :: rs).map (rowLine columns)).filter
        (fun l => l ≠ []) =
        List.intercalate [','] columns :: (r0 :: rs).map (rowLine columns) := by
      refine List.filter_eq_self.mpr ?_
      intro l hl
      simp only [decide_eq_true_eq]
      rcases List.mem_cons.mp hl with rfl | hl
      · exact hhdrne
      · obtain ⟨r, hrmem, rfl⟩ := List.mem_map.mp hl
        exact hrowline r hrmem
    rw [hfil]
    simp only [parseCSVlines]
    rw [hheader]
    have htake : ((r0 :: rs).map (rowLine columns)).take 20000 =
        (r0 :: rs).map (rowLine columns) :=
      List.take_all_of_le (by simpa using hcap)
    rw [htake, List.map_map]
    exact congrArg _ (List.map_eq_map_iff.mpr (fun r hr => by
      show rowOfHeader columns (parseLine (rowLine columns r)) = _
      rw [hrow r hr]))

/-- Witness for the amended C7: a table whose cells contain a comma and a
quote (escaping exercised) round-trips. -/
theorem toCSV_parseCSV_roundtrip_witness :
    parseCSV (toCSV [['a'], ['b']]
        [[(['a'], Value.str "x,y".toList), (['b'], Value.str "q\"t".toList)]]) =
      ([['a'], ['b']],
        [[(['a'], Value.str "x,y".toList), (['b'], Value.str "q\"t".toList)]].map (fun r =>
          rowOfHeader [['a'], ['b']] ([['a'], ['b']].map (fun c => cellString (objGet r c))))) :=
  toCSV_parseCSV_roundtrip [['a'], ['b']]
    [[(['a'], Value.str "x,y".toList), (['b'], Value.str "q\"t".toList)]]
    (by decide) (by decide) (by decide) (by decide) (by decide)

example : parseFloatChars "1234.5".toList = some ⟨12345, 1⟩ := by decide
example : parseFloatChars "-.50".toList = some ⟨-5, 1⟩ := by decide
example : parseFloatChars "-".toList = none := by decide
example : toNum (.str "1,234.5".toList) = .num ⟨12345, 1⟩ := by decide
example : toNum (.str "abc".toList) = .str "abc".toList := by decide
example : numToString ⟨-5, 1⟩ = "-0.5".toList := by decide
example : numToString ⟨12345, 1⟩ = "1234.5".toList := by decide
example :
    cleanRows [['a'], ['b']]
      [[(['a'], .str ['1']), (['b'], .str [])], [(['a'], .str ['2']), (['b'], .null)]] =
    ([['a']], [[(['a'], .num ⟨1, 0⟩)], [(['a'], .num ⟨2, 0⟩)]]) := by decide
example :
    cleanRows [['a'], ['b']]
      [[(['a'], .str ['1']), (['b'], .str ['2'])], [(['a'], .str ['1']), (['b'], .str ['2'])],
       [(['a'], .str ['1']), (['b'], .str ['3'])]] =
    ([['a'], ['b']],
     [[(['a'], .num ⟨1, 0⟩), (['b'], .num ⟨2, 0⟩)], [(['a'], .num ⟨1, 0⟩), (['b'], .num ⟨3, 0⟩)]]) := by
  decide
